import Mathlib

/-!
Shallow embedding of the assesspy ratio-study metrics package.

Python floats are modelled exactly: the all-rational computations
(`cod`, `prd`, `ki_mki`, the validator, the sales-chasing detectors and the
compliance predicates) over `ℚ`, and the logarithm-based `prb` over `ℝ`.
Python float division by zero (which yields IEEE NaN or infinity rather
than raising) is modelled by an explicit `Option`/guard where a claim
depends on it.  Python's `list.sort` / `pandas.sort_values` are stable
sorts; they are modelled with `List.insertionSort`, which is also stable.
Fallible functions (everything calling the validator, which raises) return
`Except (List String)`; the error payload is the deduplicated message
collection that the source joins into one string (CPython's `set` iteration
order during the join is unspecified, so the set itself is the faithful
model of the message content).
-/

deriving instance DecidableEq for Except

namespace AssessPy

/-- Sum of elementwise products, `sum(x * y)` for two aligned vectors. -/
def dot {α : Type} [Field α] (x y : List α) : α :=
  (List.zipWith (· * ·) x y).sum

/-- Arithmetic mean, `sum(l) / len(l)`. -/
def mean {α : Type} [Field α] (l : List α) : α :=
  l.sum / l.length

/-- The source sorts with Python's stable `list.sort`; `np.median` sorts and
takes the middle element (odd length) or the average of the two middle
elements (even length). -/
def median {α : Type} [LinearOrder α] [Field α] (l : List α) : α :=
  let s := List.insertionSort (· ≤ ·) l
  if l.length % 2 = 1 then s.getD (l.length / 2) 0
  else (s.getD (l.length / 2 - 1) 0 + s.getD (l.length / 2) 0) / 2

/-! ### utils.py: check_inputs -/

/-- Message appended when a vector has length at most 1 (utils.py line 22). -/
def msg_length : String := "\nAll input values must have length greater than 1."

/-- Message appended when a vector has a nonpositive entry (utils.py line 26). -/
def msg_positive : String := "\nAll input values must be greater than 0."

/-- Message appended when the vectors have differing lengths (utils.py line 30). -/
def msg_same_length : String := "\nAll input values must have the same length."

/-- The per-vector and cross-vector violation messages accumulated by
`check_inputs` (utils.py lines 14-30), in source order.  Vectors of `ℚ`/`ℝ`
are numeric, null-free and finite by construction, so the numeric, null and
finite checks of the source never fire in the model and the remaining
checks are length > 1, strict positivity, and equal lengths. -/
def viol_msgs {α : Type} [LinearOrder α] [Zero α] (args : List (List α)) : List String :=
  (args.map (fun x =>
    (if x.length ≤ 1 then [msg_length] else []) ++
    (if x.any (fun v => decide (v ≤ 0)) then [msg_positive] else []))).flatten ++
  (if ((args.map List.length).dedup).length > 1 then [msg_same_length] else [])

/-- utils.py `check_inputs`: starts from `out_msg = [""]`, appends the
violation messages, deduplicates through a set, and raises the aggregated
message exactly when some real message exists.  The raised payload is the
deduplicated message collection (see the module comment on `set` join
order). -/
def check_inputs {α : Type} [LinearOrder α] [Zero α] (args : List (List α)) :
    Except (List String) Unit :=
  if ("" :: viol_msgs args).dedup.length > 1 then .error (("" :: viol_msgs args).dedup)
  else .ok ()

/-! ### formulas.py: cod, prd, prb, ki_mki -/

/-- formulas.py `cod` (lines 49-57): validate, then
`100 / median_ratio * (sum(abs(ratio - median_ratio)) / n)`. -/
def cod (ratios : List ℚ) : Except (List String) ℚ :=
  match check_inputs [ratios] with
  | .error e => .error e
  | .ok _ =>
    let n : ℚ := ratios.length
    let median_ratio := median ratios
    .ok (100 / median_ratio * ((ratios.map (fun r => |r - median_ratio|)).sum / n))

/-- formulas.py `prd` (lines 99-108): validate, then
`ratio.mean() / np.average(ratio, weights=sale_price)` where
`np.average(a, weights=w) = sum(a*w) / sum(w)`. -/
def prd (assessed sale_price : List ℚ) : Except (List String) ℚ :=
  match check_inputs [assessed, sale_price] with
  | .error e => .error e
  | .ok _ =>
    let ratios := List.zipWith (· / ·) assessed sale_price
    .ok (mean ratios / (dot ratios sale_price / sale_price.sum))

/-- formulas.py `prb` right-hand regressor (line 162):
`np.log(((assessed / median_ratio) + sale_price) / 2) / np.log(2)`,
i.e. the base-2 logarithm, elementwise over the aligned pair vectors. -/
noncomputable def prb_rhs (assessed sale_price : List ℝ) : List ℝ :=
  let m := median (List.zipWith (· / ·) assessed sale_price)
  List.zipWith (fun a s => Real.logb 2 ((a / m + s) / 2)) assessed sale_price

/-- formulas.py `prb` point estimate (lines 158-169): the single slope of the
no-intercept OLS fit of `lhs` on `rhs`.  statsmodels fits through the
Moore-Penrose pseudoinverse, which for one regressor gives
`dot lhs rhs / dot rhs rhs`, and gives slope 0 when the regressor column is
identically zero; Lean's division-by-zero convention coincides with that
pseudoinverse value on the degenerate branch. -/
noncomputable def prb_val (assessed sale_price : List ℝ) : ℝ :=
  let ratios := List.zipWith (· / ·) assessed sale_price
  let m := median ratios
  let lhs := ratios.map (fun r => (r - m) / m)
  dot lhs (prb_rhs assessed sale_price) /
    dot (prb_rhs assessed sale_price) (prb_rhs assessed sale_price)

/-- formulas.py `prb` (lines 152-178): validate, then fit and return the
point estimate (the "prb" field of the returned record; the confidence
interval field is not needed by any claim and is not modelled). -/
noncomputable def prb (assessed sale_price : List ℝ) : Except (List String) ℝ :=
  match check_inputs [assessed, sale_price] with
  | .error e => .error e
  | .ok _ => .ok (prb_val assessed sale_price)

/-- formulas.py `ki_mki` rank-weighted numerator (lines 229 and 233):
`sum(v * (i + 1) for i, v in enumerate(l))` with 0-based `i`. -/
def gini_num (l : List ℚ) : ℚ :=
  (l.enum.map (fun p => p.2 * ((p.1 : ℚ) + 1))).sum

/-- The normalized Gini coefficient the source computes for one sequence
(formulas.py lines 229-235): `(2 * gini_num l / sum l - (n + 1)) / n`. -/
def gini_coeff (l : List ℚ) : ℚ :=
  (2 * gini_num l / l.sum - ((l.length : ℚ) + 1)) / (l.length : ℚ)

set_option linter.unusedVariables false in
/-- formulas.py `ki_mki` (lines 219-245): validate, pair `(sale, assessed)`,
stable-sort by sale price, compute both Gini coefficients on that shared
order, then combine as ratio (`mki = true`) or difference.  The `round`
parameter is accepted and never used, exactly as in the source.  The
`MKI` float division `GINI_assessed / GINI_sale` does not raise in Python
when `GINI_sale` is zero: it produces IEEE NaN or infinity, modelled as
`none`. -/
def ki_mki (assessed sale_price : List ℚ) (round : Option Nat) (mki : Bool) :
    Except (List String) (Option ℚ) :=
  match check_inputs [assessed, sale_price] with
  | .error e => .error e
  | .ok _ =>
    let dataset := List.insertionSort (fun p q : ℚ × ℚ => p.1 ≤ q.1)
      (List.zip sale_price assessed)
    let assessed_price := dataset.map Prod.snd
    let sale_sorted := dataset.map Prod.fst
    if mki then
      if gini_coeff sale_sorted = 0 then .ok none
      else .ok (some (gini_coeff assessed_price / gini_coeff sale_sorted))
    else .ok (some (gini_coeff assessed_price - gini_coeff sale_sorted))

/-! ### formulas.py: compliance predicates -/

/-- formulas.py line 250: `5 <= x <= 15`. -/
def cod_met (x : ℚ) : Bool :=
  decide (5 ≤ x) && decide (x ≤ 15)

/-- formulas.py line 254: `0.98 <= x <= 1.03`. -/
def prd_met (x : ℚ) : Bool :=
  decide ((98 : ℚ) / 100 ≤ x) && decide (x ≤ (103 : ℚ) / 100)

/-- formulas.py line 258: `-0.05 <= x <= 0.05`. -/
def prb_met (x : ℚ) : Bool :=
  decide (-(5 : ℚ) / 100 ≤ x) && decide (x ≤ (5 : ℚ) / 100)

/-- formulas.py line 262: `0.95 <= x <= 1.05`. -/
def ki_mki_met (x : ℚ) : Bool :=
  decide ((95 : ℚ) / 100 ≤ x) && decide (x ≤ (105 : ℚ) / 100)

/-! ### sales_chasing.py -/

/-- Empirical CDF of a sample evaluated at a point: the fraction of sample
entries that are at most the point (what `ECDF(sample)(x)` returns). -/
def ecdf_at (sample : List ℚ) (x : ℚ) : ℚ :=
  ((sample.filter (fun y => decide (y ≤ x))).length : ℚ) / (sample.length : ℚ)

/-- Maximum of a list of rationals, 0 on the empty list (only ever used on
nonempty lists, mirroring `pandas.Series.max`). -/
def max_head (l : List ℚ) : ℚ :=
  match l with
  | [] => 0
  | x :: xs => xs.foldl max x

/-- The ascending-sorted ratio vector of sales_chasing.py line 21. -/
def sorted_ratios (estimate sale_price : List ℚ) : List ℚ :=
  List.insertionSort (· ≤ ·) (List.zipWith (· / ·) estimate sale_price)

/-- The consecutive CDF differences of sales_chasing.py line 28:
`cdf.diff().dropna()`, i.e. `cdf[k+1] - cdf[k]` for `k = 0 .. n-2` (pandas
labels these `1 .. n-1`). -/
def cdf_diffs (estimate sale_price : List ℚ) : List ℚ :=
  let cdf := (sorted_ratios estimate sale_price).map
    (ecdf_at (sorted_ratios estimate sale_price))
  List.zipWith (fun a b => b - a) cdf cdf.tail

/-- The ratio value at the gap of sales_chasing.py line 32:
`sorted_ratio.iloc[int(diffs.idxmax())]`.  `idxmax` returns the pandas
label of the first occurrence of the maximum, which is one more than its
0-based position in the differences list. -/
def cdf_gap_loc (estimate sale_price : List ℚ) : ℚ :=
  (sorted_ratios estimate sale_price).getD
    ((cdf_diffs estimate sale_price).indexOf (max_head (cdf_diffs estimate sale_price)) + 1) 0

/-- sales_chasing.py `_detect_chasing_cdf` (lines 10-37): validate, sort the
ratios, take consecutive empirical-CDF differences, and flag when the
largest difference exceeds `gap` and the ratio at its (first) location lies
strictly inside `bounds`. -/
def detect_chasing_cdf (estimate sale_price : List ℚ) (bounds : ℚ × ℚ) (gap : ℚ) :
    Except (List String) Bool :=
  match check_inputs [estimate, sale_price] with
  | .error e => .error e
  | .ok _ =>
    .ok (decide (gap < max_head (cdf_diffs estimate sale_price)) &&
      (decide (bounds.1 < cdf_gap_loc estimate sale_price) &&
       decide (cdf_gap_loc estimate sale_price < bounds.2)))

/-- sales_chasing.py `pct_in_range` (lines 52-56): the fraction of entries
inside the closed range. -/
def pct_in_range (x : List ℚ) (mn mx : ℚ) : ℚ :=
  ((x.filter (fun v => decide (mn ≤ v) && decide (v ≤ mx))).length : ℚ) / (x.length : ℚ)

/-- sales_chasing.py `_detect_chasing_dist` (lines 40-66).  The synthetic
normal sample `np.random.normal(mean(ratio), std(ratio), 10000)` of line 59
is the one source of randomness in the package; it is passed in explicitly
as `ideal_dist`, making the pseudo-random draw an input of the model. -/
def detect_chasing_dist (ideal_dist : List ℚ) (estimate sale_price : List ℚ)
    (bounds : ℚ × ℚ) (gap : ℚ) : Except (List String) Bool :=
  match check_inputs [estimate, sale_price] with
  | .error e => .error e
  | .ok _ =>
    let ratios := List.zipWith (· / ·) estimate sale_price
    .ok (decide (gap < |pct_in_range ratios bounds.1 bounds.2 -
      pct_in_range ideal_dist bounds.1 bounds.2|))

/-- Result of `detect_chasing`: whether the small-sample advisory of
sales_chasing.py lines 161-165 was emitted (a Python `warnings.warn`,
non-fatal), and the boolean detection verdict. -/
structure ChasingResult where
  small_sample_warning : Bool
  flagged : Bool
deriving DecidableEq

/-- sales_chasing.py `detect_chasing` (lines 69-178): reject `gap` outside
`(0, 1)` and inverted bounds before anything else, record the non-fatal
small-sample advisory, then dispatch on `method`, rejecting unknown method
names without computing any metric. -/
def detect_chasing (ideal_dist : List ℚ) (estimate sale_price : List ℚ)
    (bounds : ℚ × ℚ) (gap : ℚ) (method : String) :
    Except (List String) ChasingResult :=
  if ¬ (0 < gap ∧ gap < 1) then
    .error ["Gap must be a positive value less than 1."]
  else if bounds.1 ≥ bounds.2 then
    .error ["Bounds must have the left value lower than the right value."]
  else
    if method = "cdf" then
      match detect_chasing_cdf estimate sale_price bounds gap with
      | .error e => .error e
      | .ok b => .ok ⟨decide (estimate.length < 30), b⟩
    else if method = "dist" then
      match detect_chasing_dist ideal_dist estimate sale_price bounds gap with
      | .error e => .error e
      | .ok b => .ok ⟨decide (estimate.length < 30), b⟩
    else if method = "both" then
      match detect_chasing_cdf estimate sale_price bounds gap,
            detect_chasing_dist ideal_dist estimate sale_price bounds gap with
      | .error e, _ => .error e
      | .ok _, .error e => .error e
      | .ok b1, .ok b2 => .ok ⟨decide (estimate.length < 30), b1 && b2⟩
    else
      .error ["Method must be either 'cdf' or 'dist'"]

/-! ### Validity of inputs, as the validator accepts them -/

/-- One vector as the validator accepts it: length at least 2 and strictly
positive entries (numeric, non-null and finite hold by construction in
`ℚ`/`ℝ`). -/
def ValidVec {α : Type} [LT α] [Zero α] (x : List α) : Prop :=
  1 < x.length ∧ ∀ v ∈ x, 0 < v

/-- A pair of vectors as the validator accepts them together. -/
def ValidPair {α : Type} [LT α] [Zero α] (a s : List α) : Prop :=
  ValidVec a ∧ ValidVec s ∧ a.length = s.length

/-! ### Helper lemmas about the validator -/

section ValidatorLemmas

variable {α : Type} [LinearOrder α] [Zero α]

lemma mem_viol_msgs {args : List (List α)} {m : String} (h : m ∈ viol_msgs args) :
    m = msg_length ∨ m = msg_positive ∨ m = msg_same_length := by
  simp only [viol_msgs, List.mem_append, List.mem_flatten, List.mem_map] at h
  rcases h with ⟨_, ⟨x, _, rfl⟩, hm⟩ | hm
  · rcases List.mem_append.mp hm with hm | hm <;>
      [skip; skip] <;> split at hm <;> simp_all
  · split at hm <;> simp_all

lemma empty_not_mem_viol_msgs {args : List (List α)} : "" ∉ viol_msgs args := by
  intro h
  rcases mem_viol_msgs h with h | h | h <;> simp [msg_length, msg_positive, msg_same_length] at h

lemma dedup_guard_lt {args : List (List α)} (h : viol_msgs args ≠ []) :
    1 < ("" :: viol_msgs args).dedup.length := by
  rw [List.dedup_cons_of_not_mem empty_not_mem_viol_msgs, List.length_cons]
  have hd : (viol_msgs args).dedup ≠ [] := fun hh => h ((List.dedup_eq_nil _).mp hh)
  have := List.length_pos.mpr hd
  omega

/-- The guard on which `check_inputs` raises, reduced to emptiness of the
violation-message list. -/
lemma check_inputs_eq_ok_iff {args : List (List α)} :
    check_inputs args = .ok () ↔ viol_msgs args = [] := by
  unfold check_inputs
  by_cases h : viol_msgs args = []
  · rw [if_neg]
    · simp [h]
    · rw [h]
      simp [List.dedup_cons_of_not_mem]
  · rw [if_pos (dedup_guard_lt h)]
    simp [h]

lemma check_inputs_eq_error_iff {args : List (List α)} {msgs : List String} :
    check_inputs args = .error msgs ↔
      viol_msgs args ≠ [] ∧ msgs = ("" :: viol_msgs args).dedup := by
  unfold check_inputs
  constructor
  · intro h
    split at h
    · next hlen =>
      refine ⟨fun hnil => ?_, (Except.error.inj h).symm⟩
      rw [hnil] at hlen
      simp [List.dedup_cons_of_not_mem] at hlen
    · exact Except.noConfusion h
  · rintro ⟨hne, rfl⟩
    rw [if_pos (dedup_guard_lt hne)]

lemma dedup_length_le_one_iff {β : Type} [DecidableEq β] {l : List β} :
    l.dedup.length ≤ 1 ↔ ∀ a ∈ l, ∀ b ∈ l, a = b := by
  constructor
  · intro h a ha b hb
    have ha' : a ∈ l.dedup := List.mem_dedup.mpr ha
    have hb' : b ∈ l.dedup := List.mem_dedup.mpr hb
    rcases hd : l.dedup with _ | ⟨x, _ | ⟨y, t⟩⟩
    · rw [hd] at ha'
      simp at ha'
    · rw [hd] at ha' hb'
      simp at ha' hb'
      rw [ha', hb']
    · rw [hd] at h
      simp at h
  · intro h
    rcases hd : l.dedup with _ | ⟨x, _ | ⟨y, t⟩⟩
    · simp
    · simp
    · exfalso
      have hnd := List.nodup_dedup l
      rw [hd] at hnd
      have hxy : x ≠ y := by
        intro hxy
        rw [hxy] at hnd
        simp [List.Nodup] at hnd
      have hx : x ∈ l := List.mem_dedup.mp (by rw [hd]; simp)
      have hy : y ∈ l := List.mem_dedup.mp (by rw [hd]; simp)
      exact hxy (h x hx y hy)

lemma msg_length_ne_positive : msg_length ≠ msg_positive := by decide

lemma msg_length_ne_same : msg_length ≠ msg_same_length := by decide

lemma msg_positive_ne_same : msg_positive ≠ msg_same_length := by decide

lemma any_nonpos_eq_false_iff {x : List α} :
    (x.any (fun v => decide (v ≤ 0))) = false ↔ ∀ v ∈ x, 0 < v := by
  rw [← Bool.not_eq_true, List.any_eq_true]
  simp [not_le]

/-- The violation messages are empty exactly when the validated conditions
all hold. -/
lemma viol_msgs_eq_nil_iff {args : List (List α)} :
    viol_msgs args = [] ↔
      (∀ x ∈ args, 1 < x.length ∧ ∀ v ∈ x, 0 < v) ∧
        ∀ x ∈ args, ∀ y ∈ args, x.length = y.length := by
  unfold viol_msgs
  rw [List.append_eq_nil]
  constructor
  · rintro ⟨h1, h2⟩
    constructor
    · intro x hx
      have hc : ((if x.length ≤ 1 then [msg_length] else []) ++
          (if x.any (fun v => decide (v ≤ 0)) then [msg_positive] else [])) = [] := by
        refine List.flatten_eq_nil_iff.mp h1 _ (List.mem_map.mpr ⟨x, hx, rfl⟩)
      rw [List.append_eq_nil] at hc
      refine ⟨?_, ?_⟩
      · rcases hc with ⟨hl, _⟩
        split at hl
        · exact absurd hl (by simp)
        · omega
      · rcases hc with ⟨_, hp⟩
        split at hp
        · exact absurd hp (by simp)
        · next hfalse =>
          exact any_nonpos_eq_false_iff.mp (by simpa using hfalse)
    · intro x hx y hy
      have hng : ¬ ((args.map List.length).dedup.length > 1) := by
        intro hgt
        rw [if_pos hgt] at h2
        exact absurd h2 (by simp)
      have hle : (args.map List.length).dedup.length ≤ 1 := by omega
      have hall := dedup_length_le_one_iff.mp hle
      exact hall _ (List.mem_map.mpr ⟨x, hx, rfl⟩) _ (List.mem_map.mpr ⟨y, hy, rfl⟩)
  · rintro ⟨h1, h2⟩
    constructor
    · rw [List.flatten_eq_nil_iff]
      intro c hc
      rcases List.mem_map.mp hc with ⟨x, hx, rfl⟩
      rcases h1 x hx with ⟨hlen, hpos⟩
      rw [if_neg (by omega), if_neg (by simp [any_nonpos_eq_false_iff.mpr hpos])]
      simp
    · rw [if_neg]
      intro hgt
      have : (args.map List.length).dedup.length ≤ 1 := by
        rw [dedup_length_le_one_iff]
        intro a ha b hb
        rcases List.mem_map.mp ha with ⟨x, hx, rfl⟩
        rcases List.mem_map.mp hb with ⟨y, hy, rfl⟩
        exact h2 x hx y hy
      omega

lemma msg_length_mem_viol_iff {args : List (List α)} :
    msg_length ∈ viol_msgs args ↔ ∃ x ∈ args, x.length ≤ 1 := by
  unfold viol_msgs
  rw [List.mem_append]
  constructor
  · rintro (h | h)
    · rcases List.mem_flatten.mp h with ⟨c, hc, hm⟩
      rcases List.mem_map.mp hc with ⟨x, hx, rfl⟩
      rcases List.mem_append.mp hm with hm | hm
      · split at hm
        · next hcond => exact ⟨x, hx, hcond⟩
        · simp at hm
      · split at hm <;> simp_all [msg_length_ne_positive]
    · split at h <;> simp_all [msg_length_ne_same]
  · rintro ⟨x, hx, hlen⟩
    left
    refine List.mem_flatten.mpr ⟨_, List.mem_map.mpr ⟨x, hx, rfl⟩, ?_⟩
    rw [List.mem_append, if_pos hlen]
    simp

lemma msg_positive_mem_viol_iff {args : List (List α)} :
    msg_positive ∈ viol_msgs args ↔ ∃ x ∈ args, ∃ v ∈ x, v ≤ 0 := by
  unfold viol_msgs
  rw [List.mem_append]
  constructor
  · rintro (h | h)
    · rcases List.mem_flatten.mp h with ⟨c, hc, hm⟩
      rcases List.mem_map.mp hc with ⟨x, hx, rfl⟩
      rcases List.mem_append.mp hm with hm | hm
      · split at hm <;> simp_all [msg_length_ne_positive.symm]
      · split at hm
        · next hcond =>
          refine ⟨x, hx, ?_⟩
          simpa using List.any_eq_true.mp hcond
        · simp at hm
    · split at h <;> simp_all [msg_positive_ne_same]
  · rintro ⟨x, hx, v, hv, hvle⟩
    left
    refine List.mem_flatten.mpr ⟨_, List.mem_map.mpr ⟨x, hx, rfl⟩, ?_⟩
    rw [List.mem_append, if_pos (List.any_eq_true.mpr ⟨v, hv, by simpa using hvle⟩)]
    simp

lemma msg_same_length_mem_viol_iff {args : List (List α)} :
    msg_same_length ∈ viol_msgs args ↔ ∃ x ∈ args, ∃ y ∈ args, x.length ≠ y.length := by
  unfold viol_msgs
  rw [List.mem_append]
  constructor
  · rintro (h | h)
    · exfalso
      rcases List.mem_flatten.mp h with ⟨c, hc, hm⟩
      rcases List.mem_map.mp hc with ⟨x, hx, rfl⟩
      rcases List.mem_append.mp hm with hm | hm <;>
        split at hm <;> simp_all [msg_length_ne_same.symm, msg_positive_ne_same.symm]
    · split at h
      · next hgt =>
        by_contra hno
        push_neg at hno
        have : (args.map List.length).dedup.length ≤ 1 := by
          rw [dedup_length_le_one_iff]
          intro a ha b hb
          rcases List.mem_map.mp ha with ⟨x, hx, rfl⟩
          rcases List.mem_map.mp hb with ⟨y, hy, rfl⟩
          exact hno x hx y hy
        omega
      · simp at h
  · rintro ⟨x, hx, y, hy, hne⟩
    right
    rw [if_pos]
    · simp
    · by_contra hng
      have hle : (args.map List.length).dedup.length ≤ 1 := by omega
      have hall := dedup_length_le_one_iff.mp hle
      exact hne (hall _ (List.mem_map.mpr ⟨x, hx, rfl⟩) _ (List.mem_map.mpr ⟨y, hy, rfl⟩))

/-- Validity of a list of vectors gives a silent validator run. -/
lemma check_inputs_ok_of_valid {args : List (List α)}
    (h1 : ∀ x ∈ args, 1 < x.length ∧ ∀ v ∈ x, 0 < v)
    (h2 : ∀ x ∈ args, ∀ y ∈ args, x.length = y.length) :
    check_inputs args = .ok () :=
  check_inputs_eq_ok_iff.mpr (viol_msgs_eq_nil_iff.mpr ⟨h1, h2⟩)

lemma check_inputs_pair_ok {a s : List α} (h : ValidPair a s) :
    check_inputs [a, s] = .ok () := by
  rcases h with ⟨⟨ha1, ha2⟩, ⟨hs1, hs2⟩, hlen⟩
  refine check_inputs_ok_of_valid ?_ ?_
  · intro x hx
    have hx' : x = a ∨ x = s := by simpa using hx
    rcases hx' with rfl | rfl
    · exact ⟨ha1, ha2⟩
    · exact ⟨hs1, hs2⟩
  · intro x hx y hy
    have hx' : x = a ∨ x = s := by simpa using hx
    have hy' : y = a ∨ y = s := by simpa using hy
    rcases hx' with rfl | rfl <;> rcases hy' with rfl | rfl
    · rfl
    · exact hlen
    · exact hlen.symm
    · rfl

lemma check_inputs_single_ok {a : List α} (h : ValidVec a) :
    check_inputs [a] = .ok () := by
  rcases h with ⟨h1, h2⟩
  refine check_inputs_ok_of_valid ?_ ?_
  · intro x hx
    have hx' : x = a := by simpa using hx
    subst hx'
    exact ⟨h1, h2⟩
  · intro x hx y hy
    have hx' : x = a := by simpa using hx
    have hy' : y = a := by simpa using hy
    rw [hx', hy']

end ValidatorLemmas

/-! ### Claim C6 and C10 theorems -/

/-- C6: `check_inputs` returns silently exactly when every passed vector
satisfies the validated conditions (over `ℚ` the numeric, non-null and
finite conditions hold by construction, leaving length > 1, strict
positivity, and equal lengths); on any violation it raises a single
aggregated error whose message collection contains the text of every
violated condition, and a calling metric propagates that error unchanged,
returning no partial result. -/
theorem check_inputs_contract (args : List (List ℚ)) :
    (check_inputs args = .ok () ↔
      (∀ x ∈ args, 1 < x.length ∧ ∀ v ∈ x, 0 < v) ∧
        ∀ x ∈ args, ∀ y ∈ args, x.length = y.length) ∧
    (∀ msgs, check_inputs args = .error msgs →
      (((∃ x ∈ args, x.length ≤ 1) → msg_length ∈ msgs) ∧
       ((∃ x ∈ args, ∃ v ∈ x, v ≤ 0) → msg_positive ∈ msgs) ∧
       ((∃ x ∈ args, ∃ y ∈ args, x.length ≠ y.length) → msg_same_length ∈ msgs))) ∧
    (∀ r msgs, check_inputs [r] = .error msgs → cod r = .error msgs) ∧
    (∀ a s msgs, check_inputs [a, s] = .error msgs → prd a s = .error msgs) ∧
    (∀ a s msgs rnd m, check_inputs [a, s] = .error msgs →
      ki_mki a s rnd m = .error msgs) := by
  refine ⟨?_, ?_, ?_, ?_, ?_⟩
  · rw [check_inputs_eq_ok_iff, viol_msgs_eq_nil_iff]
  · intro msgs hmsgs
    rcases check_inputs_eq_error_iff.mp hmsgs with ⟨_, rfl⟩
    refine ⟨fun hex => ?_, fun hex => ?_, fun hex => ?_⟩
    · exact List.mem_dedup.mpr (List.mem_cons_of_mem _ (msg_length_mem_viol_iff.mpr hex))
    · exact List.mem_dedup.mpr (List.mem_cons_of_mem _ (msg_positive_mem_viol_iff.mpr hex))
    · exact List.mem_dedup.mpr (List.mem_cons_of_mem _ (msg_same_length_mem_viol_iff.mpr hex))
  · intro r msgs h
    simp [cod, h]
  · intro a s msgs h
    simp [prd, h]
  · intro a s msgs rnd m h
    simp [ki_mki, h]

/-- Witness for C6 at a concrete invalid input: a length-1 vector together
with a length-2 vector containing 0 triggers all three modelled violations
at once, and the single raised message collection contains each of them. -/
theorem check_inputs_contract_witness :
    check_inputs [[(2 : ℚ)], [0, 3]] =
      .error ["", msg_length, msg_positive, msg_same_length] ∧
    msg_length ∈ ["", msg_length, msg_positive, msg_same_length] ∧
    msg_positive ∈ ["", msg_length, msg_positive, msg_same_length] ∧
    msg_same_length ∈ ["", msg_length, msg_positive, msg_same_length] ∧
    check_inputs [[(1 : ℚ), 2], [3, 4]] = .ok () := by
  have heval : check_inputs [[(2 : ℚ)], [0, 3]] =
      .error ["", msg_length, msg_positive, msg_same_length] := by
    norm_num [check_inputs, viol_msgs, List.dedup, List.pwFilter]
    decide
  refine ⟨heval, ?_, ?_, ?_, ?_⟩
  · exact ((check_inputs_contract _).2.1 _ heval).1 ⟨[2], by simp, by simp⟩
  · exact ((check_inputs_contract _).2.1 _ heval).2.1 ⟨[0, 3], by simp, 0, by simp, le_refl 0⟩
  · exact ((check_inputs_contract _).2.1 _ heval).2.2 ⟨[2], by simp, [0, 3], by simp, by simp⟩
  · refine (check_inputs_contract _).1.mpr ⟨?_, ?_⟩
    · intro x hx
      have hx' : x = [1, 2] ∨ x = [3, 4] := by simpa using hx
      rcases hx' with rfl | rfl <;> norm_num
    · intro x hx y hy
      have hx' : x = [1, 2] ∨ x = [3, 4] := by simpa using hx
      have hy' : y = [1, 2] ∨ y = [3, 4] := by simpa using hy
      rcases hx' with rfl | rfl <;> rcases hy' with rfl | rfl <;> rfl

/-- C10: the aggregated error message collection contains each distinct
violated condition's text exactly once, however many vectors violate that
same condition, because the messages pass through a set before joining. -/
theorem check_inputs_messages_deduplicated (args : List (List ℚ)) :
    ∀ msgs, check_inputs args = .error msgs →
      (((∃ x ∈ args, x.length ≤ 1) → msgs.count msg_length = 1) ∧
       ((∃ x ∈ args, ∃ v ∈ x, v ≤ 0) → msgs.count msg_positive = 1) ∧
       ((∃ x ∈ args, ∃ y ∈ args, x.length ≠ y.length) →
         msgs.count msg_same_length = 1) ∧
       ∀ m, msgs.count m ≤ 1) := by
  intro msgs hmsgs
  rcases check_inputs_eq_error_iff.mp hmsgs with ⟨_, rfl⟩
  have hnd := List.nodup_dedup ("" :: viol_msgs args)
  refine ⟨fun hex => ?_, fun hex => ?_, fun hex => ?_, ?_⟩
  · exact List.count_eq_one_of_mem hnd
      (List.mem_dedup.mpr (List.mem_cons_of_mem _ (msg_length_mem_viol_iff.mpr hex)))
  · exact List.count_eq_one_of_mem hnd
      (List.mem_dedup.mpr (List.mem_cons_of_mem _ (msg_positive_mem_viol_iff.mpr hex)))
  · exact List.count_eq_one_of_mem hnd
      (List.mem_dedup.mpr (List.mem_cons_of_mem _ (msg_same_length_mem_viol_iff.mpr hex)))
  · exact List.nodup_iff_count_le_one.mp hnd

/-- Witness for C10 at a concrete input where two vectors violate the same
two conditions: each message still appears exactly once. -/
theorem check_inputs_messages_deduplicated_witness :
    check_inputs [[(0 : ℚ)], [0]] = .error ["", msg_length, msg_positive] ∧
    (["", msg_length, msg_positive].count msg_length = 1) ∧
    (["", msg_length, msg_positive].count msg_positive = 1) := by
  have heval : check_inputs [[(0 : ℚ)], [0]] = .error ["", msg_length, msg_positive] := by
    norm_num [check_inputs, viol_msgs, List.dedup, List.pwFilter]
    decide
  refine ⟨heval, ?_, ?_⟩
  · exact (check_inputs_messages_deduplicated _ _ heval).1 ⟨[0], by simp, by simp⟩
  · exact (check_inputs_messages_deduplicated _ _ heval).2.1 ⟨[0], by simp, 0, by simp, le_refl 0⟩

/-! ### Claim C9: compliance predicates -/

/-- C9: the compliance predicates are exact closed-interval checks —
`cod_met` accepts precisely [5, 15], `prd_met` precisely [0.98, 1.03],
`prb_met` precisely [-0.05, 0.05], `ki_mki_met` precisely [0.95, 1.05] —
and in particular the boundary cases `cod_met 5`, `cod_met 15` hold while
`cod_met 4.999`, `cod_met 15.001` fail. -/
theorem met_predicates_thresholds :
    (∀ x : ℚ,
      (cod_met x = true ↔ 5 ≤ x ∧ x ≤ 15) ∧
      (prd_met x = true ↔ 98/100 ≤ x ∧ x ≤ 103/100) ∧
      (prb_met x = true ↔ -(5/100) ≤ x ∧ x ≤ 5/100) ∧
      (ki_mki_met x = true ↔ 95/100 ≤ x ∧ x ≤ 105/100)) ∧
    cod_met 5 = true ∧ cod_met (4999/1000) = false ∧
    cod_met 15 = true ∧ cod_met (15001/1000) = false := by
  refine ⟨fun x => ⟨?_, ?_, ?_, ?_⟩, ?_, ?_, ?_, ?_⟩ <;>
    simp [cod_met, prd_met, prb_met, ki_mki_met] <;> norm_num

/-! ### Claim C1: COD formula -/

/-- C1: for every ratio vector the validator accepts, `cod` returns exactly
`100 / median(ratio) * mean(|ratio_i - median(ratio)|)`, with `mean` the
arithmetic mean of the absolute deviations. -/
theorem cod_matches_spec_formula (ratios : List ℚ) (h : ValidVec ratios) :
    cod ratios =
      .ok (100 / median ratios * mean (ratios.map (fun r => |r - median ratios|))) := by
  simp [cod, check_inputs_single_ok h, mean, List.length_map]

/-- Witness for C1 at the accepted vector `[1, 2, 3]`. -/
theorem cod_matches_spec_formula_witness :
    ValidVec ([1, 2, 3] : List ℚ) ∧
    cod [1, 2, 3] =
      .ok (100 / median [1, 2, 3] * mean ([1, 2, 3].map (fun r => |r - median [1, 2, 3]|))) :=
  ⟨by norm_num [ValidVec], cod_matches_spec_formula [1, 2, 3] (by norm_num [ValidVec])⟩

/-! ### Claim C2: ki_mki output shape and rounding -/

/-- C2 (code bug evidence): at assessed `[1, 2, 4]`, sale `[1, 2, 3]`,
rounding precision 1 and MKI mode, `ki_mki` returns the exact Gini ratio
9/7 = 1.2857…, not the value 13/10 = 1.3 that rounding to 1 decimal place
would give: the accepted-and-documented `round` parameter is never used in
the source, which also wraps the scalar in a one-entry dict while its
docstring declares a float return and its test-suite expects plain rounded
floats.  The last conjunct shows the output is independent of `round` for
every input. -/
theorem ki_mki_returns_unrounded_value :
    ki_mki [1, 2, 4] [1, 2, 3] (some 1) true = .ok (some (9/7)) ∧
    (9 : ℚ)/7 ≠ 13/10 ∧
    ∀ (a s : List ℚ) (r1 r2 : Option Nat) (m : Bool), ki_mki a s r1 m = ki_mki a s r2 m := by
  refine ⟨?_, by norm_num, fun a s r1 r2 m => rfl⟩
  norm_num [ki_mki, check_inputs, viol_msgs, List.dedup, List.pwFilter, gini_coeff, gini_num,
    List.insertionSort, List.orderedInsert, List.enum, List.enumFrom]

/-! ### List algebra helpers -/

lemma dot_cons {α : Type} [Field α] (a b : α) (t u : List α) :
    dot (a :: t) (b :: u) = a * b + dot t u := by
  simp [dot]

lemma sum_map_mul_left (c : ℚ) (l : List ℚ) : (l.map (c * ·)).sum = c * l.sum := by
  induction l with
  | nil => simp
  | cons a t ih => simp [ih, mul_add]

lemma dot_map_mul_right (c : ℚ) :
    ∀ (x y : List ℚ), dot x (y.map (c * ·)) = c * dot x y := by
  intro x
  induction x with
  | nil => intro y; simp [dot]
  | cons a t ih =>
    intro y
    cases y with
    | nil => simp [dot]
    | cons b u =>
      simp only [List.map_cons, dot_cons, ih, mul_add]
      ring

lemma zipWith_div_map_map {c : ℚ} (hc : c ≠ 0) :
    ∀ (a s : List ℚ),
      List.zipWith (· / ·) (a.map (c * ·)) (s.map (c * ·)) = List.zipWith (· / ·) a s := by
  intro a
  induction a with
  | nil => intro s; simp
  | cons x t ih =>
    intro s
    cases s with
    | nil => simp
    | cons y u => simp [mul_div_mul_left _ _ hc, ih]

lemma valid_vec_scale {a : List ℚ} {c : ℚ} (hc : 0 < c) (h : ValidVec a) :
    ValidVec (a.map (c * ·)) := by
  rcases h with ⟨h1, h2⟩
  refine ⟨by simpa using h1, ?_⟩
  intro v hv
  rcases List.mem_map.mp hv with ⟨w, hw, rfl⟩
  exact mul_pos hc (h2 w hw)

lemma valid_pair_scale {a s : List ℚ} {c : ℚ} (hc : 0 < c) (h : ValidPair a s) :
    ValidPair (a.map (c * ·)) (s.map (c * ·)) := by
  rcases h with ⟨ha, hs, hlen⟩
  exact ⟨valid_vec_scale hc ha, valid_vec_scale hc hs, by simpa using hlen⟩

/-- The PRD value is unchanged when both vectors are scaled by the same
positive constant: the elementwise ratios are unchanged and the sale-price
weights cancel. -/
lemma prd_scale_eq {a s : List ℚ} {c : ℚ} (h : ValidPair a s) (hc : 0 < c) :
    prd (a.map (c * ·)) (s.map (c * ·)) = prd a s := by
  have h2 := valid_pair_scale hc h
  simp only [prd, check_inputs_pair_ok h, check_inputs_pair_ok h2,
    zipWith_div_map_map hc.ne', dot_map_mul_right, sum_map_mul_left]
  rw [mul_div_mul_left _ _ hc.ne']

/-! ### Pair-sort helpers for the Gini computation on identical vectors -/

lemma zip_self_eq_map {β : Type} (l : List β) : l.zip l = l.map (fun a => (a, a)) := by
  induction l with
  | nil => rfl
  | cons a t ih => simp [ih]

lemma orderedInsert_diag (x : ℚ) :
    ∀ (l : List ℚ),
      List.orderedInsert (fun p q : ℚ × ℚ => p.1 ≤ q.1) (x, x)
        (l.map (fun a => (a, a))) =
      (List.orderedInsert (· ≤ ·) x l).map (fun a => (a, a)) := by
  intro l
  induction l with
  | nil => simp
  | cons b t ih =>
    simp only [List.map_cons, List.orderedInsert]
    split_ifs with h1
    · simp
    · simp [ih]

lemma insertionSort_diag :
    ∀ (l : List ℚ),
      List.insertionSort (fun p q : ℚ × ℚ => p.1 ≤ q.1) (l.map (fun a => (a, a))) =
      (List.insertionSort (· ≤ ·) l).map (fun a => (a, a)) := by
  intro l
  induction l with
  | nil => rfl
  | cons b t ih => simp [List.insertionSort, ih, orderedInsert_diag]

/-! ### Claim C4: Gini indices of identical vectors -/

/-- C4 (counterexample): the constant vector `[1, 1]` is accepted by the
validator, yet MKI of the identical pair is not 1: both Gini coefficients
are 0 and the float division 0/0 yields NaN (modelled `none`), not 1. -/
theorem mki_of_constant_vector_not_one :
    ValidVec ([1, 1] : List ℚ) ∧
    ki_mki [1, 1] [1, 1] none true = .ok none ∧
    ki_mki [1, 1] [1, 1] none true ≠ .ok (some 1) := by
  have heval : ki_mki [1, 1] [1, 1] none true = .ok none := by
    norm_num [ki_mki, check_inputs, viol_msgs, List.dedup, List.pwFilter, gini_coeff, gini_num,
      List.insertionSort, List.orderedInsert, List.enum, List.enumFrom]
  exact ⟨by norm_num [ValidVec], heval, by rw [heval]; simp⟩

/-- C4 (amended): for every vector the validator accepts, KI of the
identical pair is 0; and MKI of the identical pair is 1 whenever the Gini
coefficient of the sorted vector is nonzero (for constant vectors it is
zero and the float division yields NaN instead — see the counterexample). -/
theorem ki_zero_and_mki_one_on_identical (v : List ℚ) (h : ValidVec v) :
    ki_mki v v none false = .ok (some 0) ∧
    (gini_coeff (List.insertionSort (· ≤ ·) v) ≠ 0 →
      ki_mki v v none true = .ok (some 1)) := by
  have hok : check_inputs [v, v] = .ok () := check_inputs_pair_ok ⟨h, h, rfl⟩
  have hsort : List.insertionSort (fun p q : ℚ × ℚ => p.1 ≤ q.1) (List.zip v v) =
      (List.insertionSort (· ≤ ·) v).map (fun a => (a, a)) := by
    rw [zip_self_eq_map, insertionSort_diag]
  have hcomps : (Prod.snd ∘ fun a : ℚ => (a, a)) = id := rfl
  have hcompf : (Prod.fst ∘ fun a : ℚ => (a, a)) = id := rfl
  have hmaps : ((List.insertionSort (· ≤ ·) v).map (fun a => (a, a))).map Prod.snd =
      (List.insertionSort (· ≤ ·) v) := by
    rw [List.map_map, hcomps, List.map_id]
  have hmapf : ((List.insertionSort (· ≤ ·) v).map (fun a => (a, a))).map Prod.fst =
      (List.insertionSort (· ≤ ·) v) := by
    rw [List.map_map, hcompf, List.map_id]
  constructor
  · simp [ki_mki, hok, hsort, hmaps, hmapf]
  · intro hg
    simp [ki_mki, hok, hsort, hmaps, hmapf, hg, div_self hg]

/-- Witness for C4 at the accepted non-constant vector `[1, 2]`, whose
sorted Gini coefficient is 1/6. -/
theorem ki_zero_and_mki_one_on_identical_witness :
    ki_mki [1, 2] [1, 2] none false = .ok (some 0) ∧
    ki_mki [1, 2] [1, 2] none true = .ok (some 1) := by
  have h : ValidVec ([1, 2] : List ℚ) := by norm_num [ValidVec]
  have hg : gini_coeff (List.insertionSort (· ≤ ·) ([1, 2] : List ℚ)) ≠ 0 := by
    norm_num [List.insertionSort, List.orderedInsert, gini_coeff, gini_num,
      List.enum, List.enumFrom]
  exact ⟨(ki_zero_and_mki_one_on_identical [1, 2] h).1,
    (ki_zero_and_mki_one_on_identical [1, 2] h).2 hg⟩

/-! ### Maximum helpers for the CDF-gap detector -/

lemma le_foldl_max (l : List ℚ) : ∀ x : ℚ, x ≤ l.foldl max x := by
  induction l with
  | nil => intro x; exact le_refl x
  | cons a t ih =>
    intro x
    rw [List.foldl_cons]
    exact le_trans (le_max_left x a) (ih (max x a))

lemma mem_le_foldl_max (l : List ℚ) : ∀ x : ℚ, ∀ b ∈ l, b ≤ l.foldl max x := by
  induction l with
  | nil => intro x b hb; simp at hb
  | cons a t ih =>
    intro x b hb
    rw [List.foldl_cons]
    rcases List.mem_cons.mp hb with rfl | hb
    · exact le_trans (le_max_right x b) (le_foldl_max t (max x b))
    · exact ih (max x a) b hb

lemma foldl_max_mem (l : List ℚ) : ∀ x : ℚ, l.foldl max x = x ∨ l.foldl max x ∈ l := by
  induction l with
  | nil => intro x; exact Or.inl rfl
  | cons a t ih =>
    intro x
    rw [List.foldl_cons]
    rcases ih (max x a) with h1 | h1
    · rcases max_choice x a with hm | hm
      · exact Or.inl (h1.trans hm)
      · exact Or.inr (by rw [h1, hm]; exact List.mem_cons_self a t)
    · exact Or.inr (List.mem_cons_of_mem a h1)

/-- The value `max_head l` of a nonempty list is its greatest element,
matching what `pandas.Series.max` returns. -/
lemma max_head_isGreatest {l : List ℚ} (h : l ≠ []) :
    IsGreatest {d | d ∈ l} (max_head l) := by
  rcases l with _ | ⟨x, xs⟩
  · exact absurd rfl h
  · have hdef : max_head (x :: xs) = xs.foldl max x := rfl
    constructor
    · show max_head (x :: xs) ∈ x :: xs
      rw [hdef]
      rcases foldl_max_mem xs x with h1 | h1
      · rw [h1]
        exact List.mem_cons_self x xs
      · exact List.mem_cons_of_mem x h1
    · intro b hb
      have hb' : b ∈ x :: xs := hb
      rw [hdef]
      rcases List.mem_cons.mp hb' with rfl | hb'
      · exact le_foldl_max xs b
      · exact mem_le_foldl_max xs x b hb'

lemma sorted_ratios_length {est sp : List ℚ} (h : est.length = sp.length) :
    (sorted_ratios est sp).length = est.length := by
  simp [sorted_ratios, (List.perm_insertionSort _ _).length_eq, h]

lemma cdf_diffs_length (est sp : List ℚ) :
    (cdf_diffs est sp).length = (sorted_ratios est sp).length - 1 := by
  simp only [cdf_diffs, List.length_zipWith, List.length_tail, List.length_map]
  omega

lemma cdf_diffs_ne_nil {est sp : List ℚ} (h : ValidPair est sp) : cdf_diffs est sp ≠ [] := by
  intro hnil
  have hlen := congrArg List.length hnil
  rw [cdf_diffs_length, sorted_ratios_length h.2.2] at hlen
  have h2 := h.1.1
  simp at hlen
  omega

/-! ### Claim C5: the CDF-gap method -/

/-- C5: for every validator-accepted estimate/sale-price pair, the CDF-gap
method flags exactly when the greatest consecutive difference `M` of the
empirical CDF of the ascending-sorted ratios exceeds the gap threshold and
the ratio value at which that maximum difference occurs — the sorted ratio
at the upper end of the first maximal gap, the source's `iloc[idxmax]`
convention — lies strictly inside the configured band. -/
theorem detect_chasing_cdf_flag_iff (estimate sale_price : List ℚ)
    (bounds : ℚ × ℚ) (gap : ℚ) (h : ValidPair estimate sale_price) :
    detect_chasing_cdf estimate sale_price bounds gap = .ok true ↔
      ∃ M, IsGreatest {d | d ∈ cdf_diffs estimate sale_price} M ∧ gap < M ∧
        bounds.1 < (sorted_ratios estimate sale_price).getD
          ((cdf_diffs estimate sale_price).indexOf M + 1) 0 ∧
        (sorted_ratios estimate sale_price).getD
          ((cdf_diffs estimate sale_price).indexOf M + 1) 0 < bounds.2 := by
  have hok := check_inputs_pair_ok h
  have hgr := max_head_isGreatest (cdf_diffs_ne_nil h)
  constructor
  · intro ht
    simp only [detect_chasing_cdf, hok] at ht
    have hb := Except.ok.inj ht
    simp only [Bool.and_eq_true, decide_eq_true_eq] at hb
    exact ⟨max_head (cdf_diffs estimate sale_price), hgr, hb.1, hb.2.1, hb.2.2⟩
  · rintro ⟨M, hM, hgap, hlo, hhi⟩
    have hMeq : M = max_head (cdf_diffs estimate sale_price) := hM.unique hgr
    rw [hMeq] at hgap hlo hhi
    simp only [detect_chasing_cdf, hok]
    have hloc : cdf_gap_loc estimate sale_price = (sorted_ratios estimate sale_price).getD
        ((cdf_diffs estimate sale_price).indexOf
          (max_head (cdf_diffs estimate sale_price)) + 1) 0 := rfl
    have hb1 : decide (gap < max_head (cdf_diffs estimate sale_price)) = true :=
      decide_eq_true hgap
    have hb2 : decide (bounds.1 < cdf_gap_loc estimate sale_price) = true :=
      decide_eq_true (by rw [hloc]; exact hlo)
    have hb3 : decide (cdf_gap_loc estimate sale_price < bounds.2) = true :=
      decide_eq_true (by rw [hloc]; exact hhi)
    rw [hb1, hb2, hb3]
    rfl

/-- Witness for C5: the ratio vector [1/2, 1, 1, 1] has a CDF jump of 3/4
into the cluster at ratio 1, which lies inside the band (0.98, 1.02), so
the method flags it. -/
theorem detect_chasing_cdf_flag_iff_witness :
    ∃ M, IsGreatest {d | d ∈ cdf_diffs [1, 2, 2, 2] [2, 2, 2, 2]} M ∧ (1/2 : ℚ) < M ∧
      (49/50, 51/50).1 < (sorted_ratios [1, 2, 2, 2] [2, 2, 2, 2]).getD
        ((cdf_diffs [1, 2, 2, 2] [2, 2, 2, 2]).indexOf M + 1) 0 ∧
      (sorted_ratios [1, 2, 2, 2] [2, 2, 2, 2]).getD
        ((cdf_diffs [1, 2, 2, 2] [2, 2, 2, 2]).indexOf M + 1) 0 < (49/50, 51/50).2 := by
  refine (detect_chasing_cdf_flag_iff [1, 2, 2, 2] [2, 2, 2, 2] (49/50, 51/50) (1/2)
    (by norm_num [ValidPair, ValidVec])).mp ?_
  norm_num [detect_chasing_cdf, check_inputs, viol_msgs, List.dedup, List.pwFilter,
    sorted_ratios, cdf_diffs, cdf_gap_loc, ecdf_at, max_head, List.insertionSort,
    List.orderedInsert, List.indexOf, List.findIdx, List.findIdx.go, List.filter]

/-! ### Claim C7: detect_chasing guards -/

lemma detect_chasing_cdf_ok_exists {est sp : List ℚ} (bounds : ℚ × ℚ) (gap : ℚ)
    (h : ValidPair est sp) : ∃ b, detect_chasing_cdf est sp bounds gap = .ok b := by
  simp only [detect_chasing_cdf, check_inputs_pair_ok h]
  exact ⟨_, rfl⟩

lemma detect_chasing_dist_ok_exists (ideal : List ℚ) {est sp : List ℚ} (bounds : ℚ × ℚ)
    (gap : ℚ) (h : ValidPair est sp) :
    ∃ b, detect_chasing_dist ideal est sp bounds gap = .ok b := by
  simp only [detect_chasing_dist, check_inputs_pair_ok h]
  exact ⟨_, rfl⟩

/-- C7: `detect_chasing` fails before any metric computation when the gap
is not strictly between 0 and 1, when the bounds are inverted, or when the
method name is unknown; a sample shorter than 30 only sets the non-fatal
advisory flag and, on validator-accepted inputs, the computation still
completes with a result for each of the three recognized methods. -/
theorem detect_chasing_guards (ideal est sp : List ℚ) (bounds : ℚ × ℚ) (gap : ℚ)
    (method : String) :
    (¬ (0 < gap ∧ gap < 1) →
      detect_chasing ideal est sp bounds gap method =
        .error ["Gap must be a positive value less than 1."]) ∧
    ((0 < gap ∧ gap < 1) → bounds.1 ≥ bounds.2 →
      detect_chasing ideal est sp bounds gap method =
        .error ["Bounds must have the left value lower than the right value."]) ∧
    ((0 < gap ∧ gap < 1) → bounds.1 < bounds.2 →
      method ≠ "cdf" → method ≠ "dist" → method ≠ "both" →
      detect_chasing ideal est sp bounds gap method =
        .error ["Method must be either 'cdf' or 'dist'"]) ∧
    ((0 < gap ∧ gap < 1) → bounds.1 < bounds.2 → ValidPair est sp →
      method = "cdf" ∨ method = "dist" ∨ method = "both" →
      ∃ b, detect_chasing ideal est sp bounds gap method =
        .ok ⟨decide (est.length < 30), b⟩) := by
  refine ⟨?_, ?_, ?_, ?_⟩
  · intro hgap
    rw [detect_chasing, if_pos hgap]
  · intro hgap hb
    rw [detect_chasing, if_neg (not_not_intro hgap), if_pos hb]
  · intro hgap hb hm1 hm2 hm3
    rw [detect_chasing, if_neg (not_not_intro hgap), if_neg (not_le.mpr hb),
      if_neg hm1, if_neg hm2, if_neg hm3]
  · intro hgap hb hvalid hm
    rcases hm with rfl | rfl | rfl
    · obtain ⟨b, hok⟩ := detect_chasing_cdf_ok_exists bounds gap hvalid
      refine ⟨b, ?_⟩
      rw [detect_chasing, if_neg (not_not_intro hgap), if_neg (not_le.mpr hb), if_pos rfl, hok]
    · obtain ⟨b, hok⟩ := detect_chasing_dist_ok_exists ideal bounds gap hvalid
      refine ⟨b, ?_⟩
      rw [detect_chasing, if_neg (not_not_intro hgap), if_neg (not_le.mpr hb),
        if_neg (by decide), if_pos rfl, hok]
    · obtain ⟨b1, hok1⟩ := detect_chasing_cdf_ok_exists bounds gap hvalid
      obtain ⟨b2, hok2⟩ := detect_chasing_dist_ok_exists ideal bounds gap hvalid
      refine ⟨b1 && b2, ?_⟩
      rw [detect_chasing, if_neg (not_not_intro hgap), if_neg (not_le.mpr hb),
        if_neg (by decide), if_neg (by decide), if_pos rfl, hok1, hok2]

/-- Witness for C7: each guard exercised at a concrete call — an oversized
gap, inverted bounds, an unknown method name, and a valid short-sample call
that completes with the advisory flag set. -/
theorem detect_chasing_guards_witness :
    detect_chasing [] [1, 2] [1, 2] (49/50, 51/50) 2 "cdf" =
      .error ["Gap must be a positive value less than 1."] ∧
    detect_chasing [] [1, 2] [1, 2] (51/50, 49/50) (1/100) "cdf" =
      .error ["Bounds must have the left value lower than the right value."] ∧
    detect_chasing [] [1, 2] [1, 2] (49/50, 51/50) (1/100) "quux" =
      .error ["Method must be either 'cdf' or 'dist'"] ∧
    ∃ b, detect_chasing [] [1, 2] [1, 2] (49/50, 51/50) (1/100) "cdf" =
      .ok ⟨decide (([1, 2] : List ℚ).length < 30), b⟩ := by
  refine ⟨?_, ?_, ?_, ?_⟩
  · exact (detect_chasing_guards [] [1, 2] [1, 2] (49/50, 51/50) 2 "cdf").1 (by norm_num)
  · exact (detect_chasing_guards [] [1, 2] [1, 2] (51/50, 49/50) (1/100) "cdf").2.1
      (by norm_num) (by norm_num)
  · exact (detect_chasing_guards [] [1, 2] [1, 2] (49/50, 51/50) (1/100) "quux").2.2.1
      (by norm_num) (by norm_num) (by decide) (by decide) (by decide)
  · exact (detect_chasing_guards [] [1, 2] [1, 2] (49/50, 51/50) (1/100) "cdf").2.2.2
      (by norm_num) (by norm_num) (by norm_num [ValidPair, ValidVec]) (Or.inl rfl)

/-! ### Real-valued evaluation lemmas for prb -/

lemma ratio_real_12 : List.zipWith (· / ·) ([1, 2] : List ℝ) [1, 1] = [1, 2] := by
  norm_num

lemma ratio_real_24 : List.zipWith (· / ·) ([2, 4] : List ℝ) [2, 2] = [1, 2] := by
  norm_num

lemma ratio_real_11 : List.zipWith (· / ·) ([1, 1] : List ℝ) [1, 1] = [1, 1] := by
  norm_num

lemma insertionSort_real_12 : List.insertionSort (· ≤ ·) ([1, 2] : List ℝ) = [1, 2] :=
  List.Sorted.insertionSort_eq (by norm_num [List.sorted_cons])

lemma insertionSort_real_11 : List.insertionSort (· ≤ ·) ([1, 1] : List ℝ) = [1, 1] :=
  List.Sorted.insertionSort_eq (by norm_num [List.sorted_cons])

lemma median_real_12 : median ([1, 2] : List ℝ) = 3/2 := by
  simp [median, insertionSort_real_12]
  norm_num

lemma median_real_11 : median ([1, 1] : List ℝ) = 1 := by
  simp [median, insertionSort_real_11]

lemma prb_rhs_12 : prb_rhs [1, 2] [1, 1] = [Real.logb 2 (5/6), Real.logb 2 (7/6)] := by
  simp only [prb_rhs, ratio_real_12, median_real_12]
  norm_num

lemma prb_rhs_24 : prb_rhs [2, 4] [2, 2] = [Real.logb 2 (5/3), Real.logb 2 (7/3)] := by
  simp only [prb_rhs, ratio_real_24, median_real_12]
  norm_num

lemma prb_rhs_11 : prb_rhs [1, 1] [1, 1] = [0, 0] := by
  simp only [prb_rhs, ratio_real_11, median_real_11]
  norm_num [Real.logb_one]

lemma prb_val_12 : prb_val [1, 2] [1, 1] =
    (1/3 * (Real.logb 2 (7/6) - Real.logb 2 (5/6))) /
      (Real.logb 2 (5/6) ^ 2 + Real.logb 2 (7/6) ^ 2) := by
  simp only [prb_val, prb_rhs_12, ratio_real_12, median_real_12, dot]
  norm_num
  ring_nf

lemma prb_val_24 : prb_val [2, 4] [2, 2] =
    (1/3 * (Real.logb 2 (7/3) - Real.logb 2 (5/3))) /
      (Real.logb 2 (5/3) ^ 2 + Real.logb 2 (7/3) ^ 2) := by
  simp only [prb_val, prb_rhs_24, ratio_real_24, median_real_12, dot]
  norm_num
  ring_nf

/-! ### prb is not invariant under scaling: the no-intercept regressor
shifts by logb 2 c, which changes the slope denominator but not its
numerator (the left-hand variable sums to zero for two points). -/

lemma logb_shift_53 : Real.logb 2 ((5 : ℝ)/3) = 1 + Real.logb 2 (5/6) := by
  have h : ((5 : ℝ)/3) = 2 * (5/6) := by norm_num
  rw [h, Real.logb_mul two_ne_zero (by norm_num),
    Real.logb_self_eq_one (by norm_num)]

lemma logb_shift_73 : Real.logb 2 ((7 : ℝ)/3) = 1 + Real.logb 2 (7/6) := by
  have h : ((7 : ℝ)/3) = 2 * (7/6) := by norm_num
  rw [h, Real.logb_mul two_ne_zero (by norm_num),
    Real.logb_self_eq_one (by norm_num)]

lemma one_add_logb_sum_pos :
    0 < 1 + Real.logb 2 ((5 : ℝ)/6) + Real.logb 2 ((7 : ℝ)/6) := by
  have h : (1 : ℝ) + Real.logb 2 (5/6) + Real.logb 2 (7/6) = Real.logb 2 (35/18) := by
    have h1 : ((35 : ℝ)/18) = 2 * ((5/6) * (7/6)) := by norm_num
    rw [h1, Real.logb_mul two_ne_zero (by norm_num),
      Real.logb_mul (by norm_num) (by norm_num),
      Real.logb_self_eq_one (by norm_num)]
    ring
  rw [h]
  exact Real.logb_pos (by norm_num) (by norm_num)

/-- The prb point estimates of the original and the doubled data differ. -/
lemma prb_vals_ne : prb_val [2, 4] [2, 2] ≠ prb_val [1, 2] [1, 1] := by
  rw [prb_val_12, prb_val_24, logb_shift_53, logb_shift_73]
  have hL5 : Real.logb 2 ((5 : ℝ)/6) < 0 :=
    Real.logb_neg (by norm_num) (by norm_num) (by norm_num)
  have hL7 : 0 < Real.logb 2 ((7 : ℝ)/6) := Real.logb_pos (by norm_num) (by norm_num)
  set L5 := Real.logb 2 ((5 : ℝ)/6)
  set L7 := Real.logb 2 ((7 : ℝ)/6)
  have hsum := one_add_logb_sum_pos
  have hN : 0 < 1/3 * (L7 - L5) := by
    have := sub_pos.mpr (lt_trans hL5 hL7)
    positivity
  have hD1 : 0 < L5 ^ 2 + L7 ^ 2 :=
    add_pos_of_nonneg_of_pos (sq_nonneg L5) (pow_pos hL7 2)
  have hlt : L5 ^ 2 + L7 ^ 2 < (1 + L5) ^ 2 + (1 + L7) ^ 2 := by
    have hexp : (1 + L5) ^ 2 + (1 + L7) ^ 2 =
        L5 ^ 2 + L7 ^ 2 + 2 * (1 + L5 + L7) := by ring
    rw [hexp]
    linarith
  have hmain := div_lt_div_of_pos_left hN hD1 hlt
  have heq : 1/3 * ((1 + L7) - (1 + L5)) = 1/3 * (L7 - L5) := by ring
  rw [heq]
  exact ne_of_lt hmain

lemma map_two_mul_12 : ([1, 2] : List ℝ).map ((2 : ℝ) * ·) = [2, 4] := by norm_num

lemma map_two_mul_11 : ([1, 1] : List ℝ).map ((2 : ℝ) * ·) = [2, 2] := by norm_num

/-- The full prb call is not invariant under doubling both vectors. -/
lemma prb_map_two_ne :
    prb (([1, 2] : List ℝ).map ((2 : ℝ) * ·)) (([1, 1] : List ℝ).map ((2 : ℝ) * ·)) ≠
      prb [1, 2] [1, 1] := by
  have h1 : ValidPair ([1, 2] : List ℝ) [1, 1] := by norm_num [ValidPair, ValidVec]
  have h2 : ValidPair ([2, 4] : List ℝ) [2, 2] := by norm_num [ValidPair, ValidVec]
  rw [map_two_mul_12, map_two_mul_11]
  simp only [prb, check_inputs_pair_ok h1, check_inputs_pair_ok h2]
  intro hcontra
  exact prb_vals_ne (Except.ok.inj hcontra)

/-! ### Claim C3: scale invariance of PRD and PRB -/

/-- C3 (counterexample): at the validator-accepted pair assessed = [1, 2],
sale = [1, 1] and positive constant c = 2, scaling both vectors changes the
prb value, because the no-intercept regressor shifts by logb 2 c while the
regression has no intercept to absorb the shift — so the claimed joint
invariance of PRD and PRB fails for PRB. -/
theorem prb_not_scale_invariant :
    ValidPair ([1, 2] : List ℝ) [1, 1] ∧ (0 : ℝ) < 2 ∧
    prb (([1, 2] : List ℝ).map ((2 : ℝ) * ·)) (([1, 1] : List ℝ).map ((2 : ℝ) * ·)) ≠
      prb [1, 2] [1, 1] :=
  ⟨by norm_num [ValidPair, ValidVec], by norm_num, prb_map_two_ne⟩

/-- C3 (amended): prd is invariant under scaling both vectors by any
positive constant; prb is not invariant in general (the doubled pair
assessed = [1, 2], sale = [1, 1] changes its value). -/
theorem prd_scale_invariant_prb_not :
    (∀ (a s : List ℚ) (c : ℚ), ValidPair a s → 0 < c →
      prd (a.map (c * ·)) (s.map (c * ·)) = prd a s) ∧
    prb (([1, 2] : List ℝ).map ((2 : ℝ) * ·)) (([1, 1] : List ℝ).map ((2 : ℝ) * ·)) ≠
      prb [1, 2] [1, 1] :=
  ⟨fun _ _ _ h hc => prd_scale_eq h hc, prb_map_two_ne⟩

/-- Witness for C3 (amended) at assessed = [1, 2], sale = [1, 1], c = 2. -/
theorem prd_scale_invariant_prb_not_witness :
    prd (([1, 2] : List ℚ).map ((2 : ℚ) * ·)) (([1, 1] : List ℚ).map ((2 : ℚ) * ·)) =
      prd [1, 2] [1, 1] :=
  prd_scale_invariant_prb_not.1 [1, 2] [1, 1] 2
    (by norm_num [ValidPair, ValidVec]) (by norm_num)

/-! ### Claim C8: degenerate prb regressor -/

lemma dot_zero_right {α : Type} [Field α] (x : List α) :
    ∀ y : List α, (∀ r ∈ y, r = 0) → dot x y = 0 := by
  induction x with
  | nil => intro y h; simp [dot]
  | cons a t ih =>
    intro y h
    cases y with
    | nil => simp [dot]
    | cons b u =>
      have hb : b = 0 := h b (List.mem_cons_self b u)
      have hu : ∀ r ∈ u, r = 0 := fun r hr => h r (List.mem_cons_of_mem b hr)
      rw [dot_cons, hb, ih u hu, mul_zero, add_zero]

lemma prb_val_ones : prb_val ([1, 1] : List ℝ) [1, 1] = 0 := by
  simp only [prb_val, prb_rhs_11]
  rw [dot_zero_right _ [0, 0] (by norm_num), zero_div]

/-- C8 (counterexample): at the validator-accepted degenerate input
assessed = sale = [1, 1] the regressor vector is identically zero — a
singular design — yet prb raises no error: the pseudoinverse-based fit
silently returns the slope 0. -/
theorem prb_degenerate_returns_ok_zero :
    ValidPair ([1, 1] : List ℝ) [1, 1] ∧
    prb_rhs [1, 1] [1, 1] = [0, 0] ∧
    prb ([1, 1] : List ℝ) [1, 1] = .ok 0 := by
  have h : ValidPair ([1, 1] : List ℝ) [1, 1] := by norm_num [ValidPair, ValidVec]
  refine ⟨h, prb_rhs_11, ?_⟩
  simp only [prb, check_inputs_pair_ok h, prb_val_ones]

/-- C8 (amended): on every validator-accepted input whose regressor vector
is identically zero (the singular no-intercept design), prb does not fail:
the pseudoinverse fit returns slope 0 with no error raised. -/
theorem prb_zero_regressor_silent_zero (a s : List ℝ) (h : ValidPair a s)
    (hz : ∀ r ∈ prb_rhs a s, r = 0) : prb a s = .ok 0 := by
  simp only [prb, check_inputs_pair_ok h]
  congr 1
  simp only [prb_val]
  rw [dot_zero_right _ _ hz, zero_div]

/-- Witness for C8 (amended) at assessed = sale = [1, 1]. -/
theorem prb_zero_regressor_silent_zero_witness :
    ValidPair ([1, 1] : List ℝ) [1, 1] ∧ prb ([1, 1] : List ℝ) [1, 1] = .ok 0 :=
  ⟨by norm_num [ValidPair, ValidVec],
   prb_zero_regressor_silent_zero [1, 1] [1, 1] (by norm_num [ValidPair, ValidVec])
     (by
       rw [prb_rhs_11]
       intro r hr
       rcases List.mem_cons.mp hr with rfl | hr2
       · rfl
       · simpa using hr2)⟩

end AssessPy
